import Mathlib

/-!
Shallow embedding of the two driver scripts of the blinky-iva repository,
`mbss_sim.py` and `mbss_oneshot.py`.

Real numbers (numpy float64 values) are modelled by `ℚ` in exact arithmetic;
complex STFT coefficients by a pair of rationals.  The numpy global random
number generator is modelled by an explicit state value threaded through the
functions: `np.random.get_state()` reads the value, `np.random.set_state(s)`
restores it, `np.random.seed(s)` replaces it by a canonical seeded state, and
each draw (`np.random.randint`) consumes one position of an abstract
deterministic stream `f : ℕ → ℕ → ℕ` (seed, position ↦ value); the concrete
Mersenne-Twister stream of numpy is kept abstract and universally quantified.
External library calls (pyroomacoustics room simulation, the separation
algorithms, `mir_eval`'s `bss_eval_sources`, STFT analysis/synthesis) are
modelled as abstract function parameters; the control flow, the data routing
and the arithmetic of the two driver files themselves are translated directly.
-/

/-- State of the numpy global RNG: the seed it was last seeded with and the
number of values drawn since.  `np.random.get_state` / `set_state` read and
write this value. -/
structure RngState where
  seed : ℕ
  pos : ℕ
deriving DecidableEq

/-- `np.random.seed s`. -/
def seedState (s : ℕ) : RngState := ⟨s, 0⟩

/-- `int(np.random.randint(2 ** 32, dtype=np.uint32))` for an abstract
deterministic stream `f`: returns the next stream value reduced mod `2^32`
and advances the state. -/
def randUint32 (f : ℕ → ℕ → ℕ) (st : RngState) : ℕ × RngState :=
  (f st.seed st.pos % 2 ^ 32, ⟨st.seed, st.pos + 1⟩)

/-- A complex STFT coefficient, exact-arithmetic model of a complex float. -/
structure Cplx where
  re : ℚ
  im : ℚ
deriving DecidableEq

/-- `np.abs(z) ** 2` for a complex coefficient. -/
def Cplx.normSq (z : Cplx) : ℚ := z.re * z.re + z.im * z.im

/-- Python `str.startswith`, modelled on the character lists (kernel-reducible,
unlike `String.startsWith`). -/
def startsWithChars : List Char → List Char → Bool
  | _, [] => true
  | [], _ :: _ => false
  | c :: cs, d :: ds => c == d && startsWithChars cs ds

/-- `s.startswith(p)` in Python. -/
def pyStartswith (s p : String) : Bool := startsWithChars s.toList p.toList

namespace MbssSim

/-- The fields of the `parameters` dictionary consumed by
`generate_arguments` in `mbss_sim.py`. -/
structure SimParams where
  seed : ℕ
  n_repeat : ℕ
  n_interferers : ℕ
  samples_list : String
  n_targets_list : List ℕ
  n_mics_list : List ℕ
  rt60_keys : List String
  sinr_list : List ℚ

/-- One argument tuple `[n_targets, n_mics, rt60, sinr, wav_files, seed]`
produced by `generate_arguments` and consumed by `one_loop`.  `W` is the
(opaque) type of one `wav_files` entry. -/
structure SimArgs (W : Type) where
  n_targets : ℕ
  n_mics : ℕ
  rt60 : String
  sinr : ℚ
  wav_files : W
  seed : ℕ

/-- `np.max` over a list of naturals (the list is nonempty in any run that
numpy accepts). -/
def maxNat (l : List ℕ) : ℕ := l.foldr max 0

/-- Innermost loop of `generate_arguments`: `for wav_files in all_wav_files`,
drawing one fresh 32-bit seed per combination and appending the tuple. -/
def wavLoop {W : Type} (f : ℕ → ℕ → ℕ) (t m : ℕ) (r : String) (s : ℚ) :
    List W → RngState → List (SimArgs W) × RngState
  | [], st => ([], st)
  | w :: ws, st =>
      let d := randUint32 f st
      let rest := wavLoop f t m r s ws d.2
      (⟨t, m, r, s, w, d.1⟩ :: rest.1, rest.2)

/-- `for sinr in parameters['sinr_list']`. -/
def sinrLoop {W : Type} (f : ℕ → ℕ → ℕ) (wavs : List W) (t m : ℕ) (r : String) :
    List ℚ → RngState → List (SimArgs W) × RngState
  | [], st => ([], st)
  | s :: ss, st =>
      let here := wavLoop f t m r s wavs st
      let rest := sinrLoop f wavs t m r ss here.2
      (here.1 ++ rest.1, rest.2)

/-- `for rt60 in parameters['rt60_list'].keys()`. -/
def rt60Loop {W : Type} (f : ℕ → ℕ → ℕ) (wavs : List W) (sinrs : List ℚ) (t m : ℕ) :
    List String → RngState → List (SimArgs W) × RngState
  | [], st => ([], st)
  | r :: rs, st =>
      let here := sinrLoop f wavs t m r sinrs st
      let rest := rt60Loop f wavs sinrs t m rs here.2
      (here.1 ++ rest.1, rest.2)

/-- `for n_mics in parameters['n_mics_list']`, with the
`if n_targets > n_mics: continue` skip of the underdetermined case. -/
def micLoop {W : Type} (f : ℕ → ℕ → ℕ) (wavs : List W) (rt60s : List String)
    (sinrs : List ℚ) (t : ℕ) :
    List ℕ → RngState → List (SimArgs W) × RngState
  | [], st => ([], st)
  | m :: ms, st =>
      if t > m then micLoop f wavs rt60s sinrs t ms st
      else
        let here := rt60Loop f wavs sinrs t m rt60s st
        let rest := micLoop f wavs rt60s sinrs t ms here.2
        (here.1 ++ rest.1, rest.2)

/-- `for n_targets in parameters['n_targets_list']`. -/
def targetLoop {W : Type} (f : ℕ → ℕ → ℕ) (wavs : List W) (mics : List ℕ)
    (rt60s : List String) (sinrs : List ℚ) :
    List ℕ → RngState → List (SimArgs W) × RngState
  | [], st => ([], st)
  | t :: ts, st =>
      let here := micLoop f wavs rt60s sinrs t mics st
      let rest := targetLoop f wavs mics rt60s sinrs ts here.2
      (here.1 ++ rest.1, rest.2)

/-- `generate_arguments(parameters)` of `mbss_sim.py`.  `f` is the abstract
RNG stream; `samp` abstracts `generate_samples.sampling(n_repeat, n,
samples_list, gender_balanced=True, seed)`.  Saves the RNG state on entry,
seeds with `parameters['seed']`, draws a seed for the sample selection, draws
one seed per condition inside the nested loops, and restores the saved RNG
state before returning. -/
def generate_arguments {W : Type} (f : ℕ → ℕ → ℕ)
    (samp : ℕ → ℕ → String → ℕ → List W) (P : SimParams) (st : RngState) :
    List (SimArgs W) × RngState :=
  let st0 := seedState P.seed
  let d := randUint32 f st0
  let wavs := samp P.n_repeat (P.n_interferers + maxNat P.n_targets_list)
      P.samples_list d.1
  ((targetLoop f wavs P.n_mics_list P.rt60_keys P.sinr_list P.n_targets_list d.2).1,
    st)

/-- Observable events of one `one_loop` call: the room simulation front-end,
the invocation of a separation algorithm (with `withCallback` recording
whether a convergence callback was passed, i.e. `monitor_convergence`), and
an invocation of `convergence_callback` on spectra `x`. -/
inductive Ev (α : Type) where
  | simulate
  | runAlgo (name : String) (withCallback : Bool)
  | evalY (x : α)

/-- Configuration-error channel of `one_loop`.  The Python function raises
nothing; the `Except` wrapper makes the absence of an error observable. -/
inductive CfgError where
  | underdetermined
deriving DecidableEq

/-- One record of the `results` list built by `one_loop` (lines 221–229 of
`mbss_sim.py`): the condition fields plus the `sdr`/`sir` metric lists.
`β` is the (opaque) type of one `bss_eval_sources` metric entry. -/
structure AlgoResult (β : Type) where
  algorithm : String
  n_targets : ℕ
  n_mics : ℕ
  rt60 : String
  sinr : ℚ
  seed : ℕ
  sdr : List β
  sir : List β

/-- Abstract environment of `one_loop`: the `parameters` fields it reads and
the external collaborators it calls.
- `monitor` is `parameters['monitor_convergence']`;
- `algos` is `parameters['algorithm_kwargs'].items()` (κ = opaque kwargs);
- `cbEval` is the net value computed by one `convergence_callback`
  invocation (synthesis, optional reordering, `bss_eval_sources`) for a
  given algorithm name and spectra;
- `algoRun` abstracts `pra.bss.auxiva` / `blinkiva_gauss`: final spectra,
  the list of intermediate spectra it offers to its callback, and the RNG
  state after the run;
- `simulate` abstracts the whole simulation front-end of `one_loop` (room,
  RIRs, mixing, noise draw, STFT), producing the microphone spectra
  `X_mics` from the wav files and the RNG state. -/
structure LoopEnv (α β κ W : Type) where
  monitor : Bool
  algos : List (String × κ)
  cbEval : String → α → β × β
  algoRun : String → κ → α → RngState → α × List α × RngState
  simulate : W → RngState → α × RngState

/-- The two algorithm names dispatched by the `if name == 'auxiva' /
elif name == 'blinkiva-gauss' / else: continue` chain of `one_loop`. -/
def isKnownAlgo (name : String) : Bool :=
  name == "auxiva" || name == "blinkiva-gauss"

/-- Body of one iteration of the `for name, kwargs in
parameters['algorithm_kwargs'].items()` loop of `one_loop`: build the result
record, set up the callback (or evaluate once on the raw `X_mics` when
`monitor_convergence` is off), dispatch on the algorithm name, and append
the final evaluation for the implemented algorithms.  Returns the finished
record, the event trace of the iteration, and the RNG state. -/
def runEntry {α β κ W : Type} (env : LoopEnv α β κ W) (a : SimArgs W) (x : α)
    (p : String × κ) (st : RngState) :
    AlgoResult β × List (Ev α) × RngState :=
  let name := p.1
  let initSdr : List β := if env.monitor then [] else [(env.cbEval name x).1]
  let initSir : List β := if env.monitor then [] else [(env.cbEval name x).2]
  let initEv : List (Ev α) := if env.monitor then [] else [Ev.evalY x]
  if isKnownAlgo name then
    let out := env.algoRun name p.2 x st
    let y := out.1
    let inter := if env.monitor then out.2.1 else []
    (⟨name, a.n_targets, a.n_mics, a.rt60, a.sinr, a.seed,
        initSdr ++ inter.map (fun z => (env.cbEval name z).1)
          ++ [(env.cbEval name y).1],
        initSir ++ inter.map (fun z => (env.cbEval name z).2)
          ++ [(env.cbEval name y).2]⟩,
      initEv ++ [Ev.runAlgo name env.monitor] ++ inter.map Ev.evalY
        ++ [Ev.evalY y],
      out.2.2)
  else
    (⟨name, a.n_targets, a.n_mics, a.rt60, a.sinr, a.seed, initSdr, initSir⟩,
      initEv, st)

/-- The whole algorithm loop of `one_loop`, threading the RNG state. -/
def runEntries {α β κ W : Type} (env : LoopEnv α β κ W) (a : SimArgs W) (x : α) :
    List (String × κ) → RngState → List (AlgoResult β) × List (Ev α) × RngState
  | [], st => ([], [], st)
  | p :: ps, st =>
      let e := runEntry env a x p st
      let r := runEntries env a x ps e.2.2
      (e.1 :: r.1, e.2.1 ++ r.2.1, r.2.2)

/-- `one_loop(args)` of `mbss_sim.py`: rejects the underdetermined case by
returning an empty results list before doing anything, otherwise saves the
RNG state, seeds with the tuple's `seed`, runs the simulation front-end and
the algorithm loop, and restores the saved RNG state before returning.  The
third component is the event trace of the call. -/
def one_loop {α β κ W : Type} (env : LoopEnv α β κ W) (a : SimArgs W)
    (st : RngState) :
    Except CfgError (List (AlgoResult β)) × RngState × List (Ev α) :=
  if a.n_mics < a.n_targets then (Except.ok [], st, [])
  else
    let st0 := seedState a.seed
    let sim := env.simulate a.wav_files st0
    let r := runEntries env a sim.1 env.algos sim.2
    (Except.ok r.1, st, Ev.simulate :: r.2.1)

/-- `sources_var` of `one_loop` (lines 88–89): `np.ones(n_targets)` with
entry 0 overwritten by `parameters['weak_source_var']`; undefined (numpy
`IndexError`) when `n_targets = 0`. -/
def sources_var (n_targets : ℕ) (w : ℚ) : Option (List ℚ) :=
  if n_targets = 0 then none else some (w :: List.replicate (n_targets - 1) 1)

/-- `sigma_n = np.sqrt(10 ** (-snr / 10) * np.sum(sources_var))` (line 169).
`pow10` abstracts the real exponential `x ↦ 10 ** x`; `sqrtFn` abstracts
`np.sqrt` on nonnegative arguments, and a negative argument yields NaN,
modelled by `none`. -/
def one_loop_sigma_n (pow10 sqrtFn : ℚ → ℚ) (snr : ℚ) (sv : List ℚ) :
    Option ℚ :=
  let a := pow10 (-snr / 10) * sv.sum
  if a < 0 then none else some (sqrtFn a)

/-- `sigma_i = np.sqrt(np.maximum(0, 10 ** (-sinr / 10) * np.sum(sources_var)
- sigma_n ** 2) / n_interferers)` (lines 172–174).  A NaN `sigma_n`
propagates through `np.maximum`; division by `n_interferers = 0` is
ill-defined (`none`); a negative square-root argument yields NaN (`none`). -/
def one_loop_sigma_i (pow10 sqrtFn : ℚ → ℚ) (snr sinr : ℚ) (sv : List ℚ)
    (n_interferers : ℕ) : Option ℚ :=
  match one_loop_sigma_n pow10 sqrtFn snr sv with
  | none => none
  | some sn =>
      if n_interferers = 0 then none
      else
        let arg := max 0 (pow10 (-sinr / 10) * sv.sum - sn ^ 2) /
          (n_interferers : ℚ)
        if arg < 0 then none else some (sqrtFn arg)

/-- `U_blinky = np.sum(np.abs(X_all[:, :, n_mics:]) ** 2, axis=1)`
(line 197): the blinky power tensor of shape `(n_frames, n_blinkies)` where
`n_blinkies = C - n_mics` for `X_all` of shape `(T, F, C)`. -/
def u_blinky (T F C n_mics : ℕ) (X_all : Fin T → Fin F → Fin C → Cplx) :
    Fin T → Fin (C - n_mics) → ℚ :=
  fun t b => ∑ f : Fin F,
    Cplx.normSq (X_all t f ⟨n_mics + b.val, by omega⟩)

/-- `np.std(y, axis=0)` as a vector of per-channel values, for an abstract
standard-deviation functional `stdFn` applied to each column of the
`(samples, channels)` matrix `y`. -/
def colStds {S N : ℕ} (stdFn : (Fin S → ℚ) → ℚ) (y : Fin S → Fin N → ℚ) :
    Fin N → ℚ :=
  fun c => stdFn (fun s => y s c)

/-- `np.argsort(v)[::-1]`: indices of `v` sorted by ascending value, then
reversed, i.e. an index permutation putting `v` in decreasing order. -/
def argsortDesc {N : ℕ} (v : Fin N → ℚ) : List (Fin N) :=
  ((List.finRange N).mergeSort (fun i j => decide (v i ≤ v j))).reverse

/-- `y = y[:, new_ord]` with `new_ord = np.argsort(np.std(y, axis=0))[::-1]`:
permute the channels of `y` into decreasing order of `stdFn`. -/
def reorderDesc {S N : ℕ} (stdFn : (Fin S → ℚ) → ℚ)
    (y : Fin S → Fin N → ℚ) : Fin S → Fin N → ℚ :=
  fun s c => y s ((argsortDesc (colStds stdFn y)).get
    (Fin.cast (by simp [argsortDesc, List.length_mergeSort]) c))

/-- The reordering step of `convergence_callback` in `mbss_sim.py`
(lines 204–206): applied iff `not algo_name.startswith('blinkiva')`. -/
def sim_reorder {S N : ℕ} (stdFn : (Fin S → ℚ) → ℚ) (algo_name : String)
    (y : Fin S → Fin N → ℚ) : Fin S → Fin N → ℚ :=
  if !(pyStartswith algo_name "blinkiva") then reorderDesc stdFn y else y

/-- `convergence_callback(Y, n_targets, SDR, SIR, ref, framesize, win_s,
algo_name)` of `mbss_sim.py` (lines 200–214).  `synth` abstracts
`pra.transform.synthesis`; `bssEval` abstracts the slicing against `ref` and
`bss_eval_sources`, producing one `(sdr, sir)` metric pair.  The function
returns the post-call values of the three buffers it can reach: the spectra
`Y` it received and the two metric lists it appends to. -/
def convergence_callback {α β : Type} {S N : ℕ}
    (synth : α → Fin S → Fin N → ℚ) (stdFn : (Fin S → ℚ) → ℚ)
    (bssEval : (Fin S → Fin N → ℚ) → β × β) (algo_name : String)
    (Y : α) (SDR SIR : List β) : α × List β × List β :=
  let y := synth Y
  let y2 := sim_reorder stdFn algo_name y
  let m := bssEval y2
  (Y, SDR ++ [m.1], SIR ++ [m.2])

/-- A sequence of `convergence_callback` invocations (one per list element,
each with its own algorithm name and spectra), threading the two metric
lists through. -/
def cbIter {α β : Type} {S N : ℕ} (synth : α → Fin S → Fin N → ℚ)
    (stdFn : (Fin S → ℚ) → ℚ) (bssEval : (Fin S → Fin N → ℚ) → β × β) :
    List (String × α) → List β → List β → List β × List β
  | [], S0, I0 => (S0, I0)
  | c :: cs, S0, I0 =>
      let r := convergence_callback synth stdFn bssEval c.1 c.2 S0 I0
      cbIter synth stdFn bssEval cs r.2.1 r.2.2

end MbssSim

namespace MbssOneshot

/-- The reordering step of `convergence_callback` in `mbss_oneshot.py`
(lines 309–311), also used on the final output (lines 385–387): applied iff
`args.algo != "blinkiva"` (exact string comparison, unlike `mbss_sim`'s
prefix test). -/
def oneshot_reorder {S N : ℕ} (stdFn : (Fin S → ℚ) → ℚ) (algo : String)
    (y : Fin S → Fin N → ℚ) : Fin S → Fin N → ℚ :=
  if !(algo == "blinkiva") then MbssSim.reorderDesc stdFn y else y

/-- `convergence_callback(Y, **kwargs)` of `mbss_oneshot.py`
(lines 303–319): same pipeline as the `mbss_sim` callback but with the
exact-equality reorder predicate and the globals `SDR`, `SIR`. -/
def convergence_callback {α β : Type} {S N : ℕ}
    (synth : α → Fin S → Fin N → ℚ) (stdFn : (Fin S → ℚ) → ℚ)
    (bssEval : (Fin S → Fin N → ℚ) → β × β) (algo : String)
    (Y : α) (SDR SIR : List β) : α × List β × List β :=
  let y := synth Y
  let y2 := oneshot_reorder stdFn algo y
  let m := bssEval y2
  (Y, SDR ++ [m.1], SIR ++ [m.2])

/-- A sequence of `mbss_oneshot` `convergence_callback` invocations. -/
def cbIter {α β : Type} {S N : ℕ} (synth : α → Fin S → Fin N → ℚ)
    (stdFn : (Fin S → ℚ) → ℚ) (bssEval : (Fin S → Fin N → ℚ) → β × β)
    (algo : String) :
    List α → List β → List β → List β × List β
  | [], S0, I0 => (S0, I0)
  | Y :: Ys, S0, I0 =>
      let r := convergence_callback synth stdFn bssEval algo Y S0 I0
      cbIter synth stdFn bssEval algo Ys r.2.1 r.2.2

/-- `sigma_i = np.sqrt(num / (n_src - n_tgt))` with
`num = 10 ** (-sir / 10) * np.sum(src_std ** 2)` in `callback_mix` of
`mbss_oneshot.py` (lines 241–243): no flooring; the division is ill-defined
for `n_src ≤ n_tgt` (zero or negative divisor), and a negative square-root
argument yields NaN (`none`). -/
def callback_mix_sigma_i (pow10 sqrtFn : ℚ → ℚ) (sir : ℚ) (src_std : List ℚ)
    (n_src n_tgt : ℕ) : Option ℚ :=
  let num := pow10 (-sir / 10) * (src_std.map (fun x => x ^ 2)).sum
  if n_src ≤ n_tgt then none
  else
    let arg := num / ((n_src : ℚ) - (n_tgt : ℚ))
    if arg < 0 then none else some (sqrtFn arg)

/-- `np.mean` of a vector. -/
def meanQ {n : ℕ} (x : Fin n → ℚ) : ℚ := (∑ i, x i) / (n : ℚ)

/-- `np.var` of a vector: mean squared deviation from the mean. -/
def varQ {n : ℕ} (x : Fin n → ℚ) : ℚ :=
  (∑ i, (x i - meanQ x) ^ 2) / (n : ℚ)

/-- `np.linalg.norm(_, axis=1) ** 2` of the STFT of the reference-microphone
recording of source `k` (lines 270–273): per-frame total spectral power.
`stft` abstracts `pra.transform.analysis`; `rec k c` is
`separate_recordings[k, c, :]` (channel index kept as a plain natural). -/
def rrRaw {nsamp T F : ℕ} (stft : (Fin nsamp → ℚ) → Fin T → Fin F → Cplx)
    (sig : Fin nsamp → ℚ) : Fin T → ℚ :=
  fun t => ∑ f : Fin F, Cplx.normSq (stft sig t f)

/-- `rr /= np.sum(rr)` (line 274). -/
def rrNorm {nsamp T F : ℕ} (stft : (Fin nsamp → ℚ) → Fin T → Fin F → Cplx)
    (sig : Fin nsamp → ℚ) : Fin T → ℚ :=
  fun t => rrRaw stft sig t / (∑ t', rrRaw stft sig t')

/-- `R_real = np.array(R_real).T` before the `lmbd` rescaling (lines 266–277):
column `k` is the normalized per-frame power profile of source `k` at
channel 0. -/
def R_real0 {nsrc nsamp T F : ℕ}
    (rec : Fin nsrc → ℕ → Fin nsamp → ℚ)
    (stft : (Fin nsamp → ℚ) → Fin T → Fin F → Cplx) :
    Fin T → Fin nsrc → ℚ :=
  fun t k => rrNorm stft (rec k 0) t

/-- `lmbd = R_real.mean(axis=0)` (line 278). -/
def lmbd {nsrc nsamp T F : ℕ}
    (rec : Fin nsrc → ℕ → Fin nsamp → ℚ)
    (stft : (Fin nsamp → ℚ) → Fin T → Fin F → Cplx) : Fin nsrc → ℚ :=
  fun k => meanQ (fun t => R_real0 rec stft t k)

/-- `R_real /= lmbd[None, :]` (line 279). -/
def R_real {nsrc nsamp T F : ℕ}
    (rec : Fin nsrc → ℕ → Fin nsamp → ℚ)
    (stft : (Fin nsamp → ℚ) → Fin T → Fin F → Cplx) :
    Fin T → Fin nsrc → ℚ :=
  fun t k => R_real0 rec stft t k / lmbd rec stft k

/-- `G_real` (lines 267–269, 286–287): the per-blinky-channel variance of
each target source's recordings, rescaled by `lmbd`; row `k`, column `b`
corresponds to blinky channel `n_mics + b`. -/
def G_real {nsrc nsamp T F : ℕ} (n_mics L : ℕ)
    (rec : Fin nsrc → ℕ → Fin nsamp → ℚ)
    (stft : (Fin nsamp → ℚ) → Fin T → Fin F → Cplx) :
    Fin nsrc → Fin L → ℚ :=
  fun k b => varQ (rec k (n_mics + b.val)) * lmbd rec stft k

/-- `U_fake = np.dot(R_real, G_real)` (line 289): the debug fake-blinky
power tensor, shape `(T, n_blinkies)`. -/
def U_fake {nsrc nsamp T F : ℕ} (n_mics L : ℕ)
    (rec : Fin nsrc → ℕ → Fin nsamp → ℚ)
    (stft : (Fin nsamp → ℚ) → Fin T → Fin F → Cplx) :
    Fin T → Fin L → ℚ :=
  fun t b => ∑ k, R_real rec stft t k *
    G_real n_mics L rec stft k b

end MbssOneshot

/-! Concrete instances used by witnesses and counterexamples. -/

/-- A small concrete `one_loop` environment: `monitor_convergence = False`,
one implemented algorithm and one unknown algorithm name. -/
def envT : MbssSim.LoopEnv ℕ ℕ Unit Unit where
  monitor := false
  algos := [("auxiva", ()), ("no-such-algo", ())]
  cbEval := fun _ x => (x, x + 1)
  algoRun := fun _ _ x st => (x + 10, [x + 5], ⟨st.seed, st.pos + 1⟩)
  simulate := fun _ st => (7, ⟨st.seed, st.pos + 3⟩)

/-- A concrete `one_loop` environment with `monitor_convergence = True`. -/
def envM : MbssSim.LoopEnv ℕ ℕ Unit Unit where
  monitor := true
  algos := [("blinkiva-gauss", ())]
  cbEval := fun _ x => (x, x + 1)
  algoRun := fun _ _ x st => (x + 10, [x + 5], ⟨st.seed, st.pos + 1⟩)
  simulate := fun _ st => (7, ⟨st.seed, st.pos + 3⟩)

/-- An underdetermined argument tuple: `n_mics = 1 < 2 = n_targets`. -/
def argsUnder : MbssSim.SimArgs Unit := ⟨2, 1, "low", 0, (), 42⟩

/-- A determined argument tuple: `n_mics = 2 = n_targets`. -/
def argsDet : MbssSim.SimArgs Unit := ⟨2, 2, "low", 0, (), 42⟩

/-- A concrete incoming RNG state. -/
def stT : RngState := ⟨5, 9⟩

/-! Theorems settling the claims. -/

/-- C1 counterexample: at the underdetermined input `argsUnder`
(`n_mics = 1 < 2 = n_targets`), `one_loop` completes normally — it returns
the empty results list and raises no configuration error, so the claim that
the rejection happens "with a configuration error" is false on the code. -/
theorem c1_counterexample :
    argsUnder.n_mics < argsUnder.n_targets ∧
    MbssSim.one_loop envT argsUnder stT = (Except.ok [], stT, []) ∧
    (MbssSim.one_loop envT argsUnder stT).1 ≠
      Except.error MbssSim.CfgError.underdetermined := by
  refine ⟨by decide, rfl, fun h => ?_⟩
  exact Except.noConfusion h

/-- C1 (amended): for every argument tuple with `n_mics < n_targets`, the
procedure is rejected up front by returning an empty results list — not by
raising a configuration error — and performs no computation: no simulation,
no separation, no callback invocation (empty event trace) and no RNG-state
mutation take place. -/
theorem c1_underdetermined_returns_empty {α β κ W : Type}
    (env : MbssSim.LoopEnv α β κ W) (a : MbssSim.SimArgs W) (st : RngState)
    (h : a.n_mics < a.n_targets) :
    MbssSim.one_loop env a st = (Except.ok [], st, []) := by
  unfold MbssSim.one_loop
  rw [if_pos h]

theorem c1_witness :
    argsUnder.n_mics < argsUnder.n_targets ∧
    MbssSim.one_loop envT argsUnder stT = (Except.ok [], stT, []) :=
  ⟨by decide, c1_underdetermined_returns_empty envT argsUnder stT (by decide)⟩

/-- C2: all randomness is fixed by the seed.  `generate_arguments` reseeds
the RNG from `parameters['seed']` on entry, so its returned argument list
(same tuples, same order, same per-condition seeds) is independent of the
incoming RNG state — two calls with equal parameters agree; and `one_loop`
reseeds from the `seed` field of its argument tuple, so its results and its
whole event trace are likewise independent of the incoming RNG state. -/
theorem c2_seed_determinism :
    (∀ (W : Type) (f : ℕ → ℕ → ℕ) (samp : ℕ → ℕ → String → ℕ → List W)
      (P : MbssSim.SimParams) (st st' : RngState),
      (MbssSim.generate_arguments f samp P st).1 =
        (MbssSim.generate_arguments f samp P st').1) ∧
    (∀ (α β κ W : Type) (env : MbssSim.LoopEnv α β κ W)
      (a : MbssSim.SimArgs W) (st st' : RngState),
      (MbssSim.one_loop env a st).1 = (MbssSim.one_loop env a st').1 ∧
      (MbssSim.one_loop env a st).2.2 = (MbssSim.one_loop env a st').2.2) := by
  refine ⟨fun W f samp P st st' => rfl, fun α β κ W env a st st' => ?_⟩
  unfold MbssSim.one_loop
  split <;> exact ⟨rfl, rfl⟩

/-- C3: both drivers leave the caller-visible RNG state unchanged:
`generate_arguments` and `one_loop` save the global RNG state before
reseeding and restore exactly that state before returning (and the
underdetermined early return of `one_loop` never touches it), so every
completed call returns with the incoming state. -/
theorem c3_rng_state_restored :
    (∀ (W : Type) (f : ℕ → ℕ → ℕ) (samp : ℕ → ℕ → String → ℕ → List W)
      (P : MbssSim.SimParams) (st : RngState),
      (MbssSim.generate_arguments f samp P st).2 = st) ∧
    (∀ (α β κ W : Type) (env : MbssSim.LoopEnv α β κ W)
      (a : MbssSim.SimArgs W) (st : RngState),
      (MbssSim.one_loop env a st).2.1 = st) := by
  refine ⟨fun W f samp P st => rfl, fun α β κ W env a st => ?_⟩
  unfold MbssSim.one_loop
  split <;> rfl

/-- Squared magnitude of a complex coefficient is nonnegative. -/
theorem Cplx.normSq_nonneg (z : Cplx) : 0 ≤ z.normSq :=
  add_nonneg (mul_self_nonneg _) (mul_self_nonneg _)

/-- `np.mean` of a nonnegative vector is nonnegative. -/
theorem meanQ_nonneg {n : ℕ} {x : Fin n → ℚ} (hx : ∀ i, 0 ≤ x i) :
    0 ≤ MbssOneshot.meanQ x :=
  div_nonneg (Finset.sum_nonneg fun i _ => hx i) (Nat.cast_nonneg n)

/-- `np.var` is nonnegative. -/
theorem varQ_nonneg {n : ℕ} (x : Fin n → ℚ) : 0 ≤ MbssOneshot.varQ x :=
  div_nonneg (Finset.sum_nonneg fun _ _ => sq_nonneg _) (Nat.cast_nonneg n)

/-- Per-frame spectral powers are nonnegative. -/
theorem rrRaw_nonneg {nsamp T F : ℕ}
    (stft : (Fin nsamp → ℚ) → Fin T → Fin F → Cplx) (sig : Fin nsamp → ℚ)
    (t : Fin T) : 0 ≤ MbssOneshot.rrRaw stft sig t :=
  Finset.sum_nonneg fun _ _ => Cplx.normSq_nonneg _

/-- The normalized activation profile is entrywise nonnegative. -/
theorem rrNorm_nonneg {nsamp T F : ℕ}
    (stft : (Fin nsamp → ℚ) → Fin T → Fin F → Cplx) (sig : Fin nsamp → ℚ)
    (t : Fin T) : 0 ≤ MbssOneshot.rrNorm stft sig t :=
  div_nonneg (rrRaw_nonneg stft sig t)
    (Finset.sum_nonneg fun t' _ => rrRaw_nonneg stft sig t')

/-- `lmbd` is entrywise nonnegative. -/
theorem lmbd_nonneg {nsrc nsamp T F : ℕ}
    (rec : Fin nsrc → ℕ → Fin nsamp → ℚ)
    (stft : (Fin nsamp → ℚ) → Fin T → Fin F → Cplx) (k : Fin nsrc) :
    0 ≤ MbssOneshot.lmbd rec stft k :=
  meanQ_nonneg fun t => rrNorm_nonneg stft (rec k 0) t

/-- C4: the blinky power tensor passed to the estimator is elementwise
nonnegative.  In `mbss_sim.one_loop` (and the real-blinky path of
`mbss_oneshot`) it is `u_blinky`, a per-frame sum over frequency bins of
squared STFT magnitudes, with shape `(T, C - n_mics) = (n_frames,
n_blinkies)` carried by its type; in the fake-blinky debug path of
`mbss_oneshot` it is `U_fake = R_real · G_real`, a product of entrywise
nonnegative factors.  Every entry of either tensor is `≥ 0`. -/
theorem c4_u_blinky_nonneg :
    (∀ (T F C n_mics : ℕ) (X_all : Fin T → Fin F → Fin C → Cplx)
      (t : Fin T) (b : Fin (C - n_mics)),
      0 ≤ MbssSim.u_blinky T F C n_mics X_all t b) ∧
    (∀ (nsrc nsamp T F n_mics L : ℕ)
      (rec : Fin nsrc → ℕ → Fin nsamp → ℚ)
      (stft : (Fin nsamp → ℚ) → Fin T → Fin F → Cplx)
      (t : Fin T) (b : Fin L),
      0 ≤ MbssOneshot.U_fake n_mics L rec stft t b) := by
  constructor
  · intro T F C n_mics X_all t b
    exact Finset.sum_nonneg fun f _ => Cplx.normSq_nonneg _
  · intro nsrc nsamp T F n_mics L rec stft t b
    refine Finset.sum_nonneg fun k _ => mul_nonneg ?_ ?_
    · exact div_nonneg (rrNorm_nonneg stft (rec k 0) t) (lmbd_nonneg rec stft k)
    · exact mul_nonneg (varQ_nonneg _) (lmbd_nonneg rec stft k)

/-- C5: neither driver's `convergence_callback` mutates the spectra `Y` it
receives — the post-call value of `Y` is the value passed in — and its only
side effects are appending one entry to each of the `SDR` and `SIR` lists
(full characterization of the callback's effect). -/
theorem c5_callback_preserves_Y :
    (∀ (α β : Type) (S N : ℕ) (synth : α → Fin S → Fin N → ℚ)
      (stdFn : (Fin S → ℚ) → ℚ) (bssEval : (Fin S → Fin N → ℚ) → β × β)
      (algo_name : String) (Y : α) (SDR SIR : List β),
      MbssSim.convergence_callback synth stdFn bssEval algo_name Y SDR SIR =
        (Y,
          SDR ++ [(bssEval (MbssSim.sim_reorder stdFn algo_name (synth Y))).1],
          SIR ++ [(bssEval (MbssSim.sim_reorder stdFn algo_name (synth Y))).2])) ∧
    (∀ (α β : Type) (S N : ℕ) (synth : α → Fin S → Fin N → ℚ)
      (stdFn : (Fin S → ℚ) → ℚ) (bssEval : (Fin S → Fin N → ℚ) → β × β)
      (algo : String) (Y : α) (SDR SIR : List β),
      MbssOneshot.convergence_callback synth stdFn bssEval algo Y SDR SIR =
        (Y,
          SDR ++ [(bssEval (MbssOneshot.oneshot_reorder stdFn algo (synth Y))).1],
          SIR ++ [(bssEval (MbssOneshot.oneshot_reorder stdFn algo (synth Y))).2])) :=
  ⟨fun _ _ _ _ _ _ _ _ _ _ _ => rfl, fun _ _ _ _ _ _ _ _ _ _ _ => rfl⟩

/-- Net effect of a sequence of `mbss_sim` callback invocations on the two
metric lists: each invocation appends exactly its own metric pair. -/
theorem sim_cbIter_spec {α β : Type} {S N : ℕ}
    (synth : α → Fin S → Fin N → ℚ) (stdFn : (Fin S → ℚ) → ℚ)
    (bssEval : (Fin S → Fin N → ℚ) → β × β) (calls : List (String × α)) :
    ∀ S0 I0 : List β,
      (MbssSim.cbIter synth stdFn bssEval calls S0 I0).1 =
        S0 ++ calls.map
          (fun c => (bssEval (MbssSim.sim_reorder stdFn c.1 (synth c.2))).1) ∧
      (MbssSim.cbIter synth stdFn bssEval calls S0 I0).2 =
        I0 ++ calls.map
          (fun c => (bssEval (MbssSim.sim_reorder stdFn c.1 (synth c.2))).2) := by
  induction calls with
  | nil => intro S0 I0; simp [MbssSim.cbIter]
  | cons c cs ih =>
      intro S0 I0
      have h := ih
        (S0 ++ [(bssEval (MbssSim.sim_reorder stdFn c.1 (synth c.2))).1])
        (I0 ++ [(bssEval (MbssSim.sim_reorder stdFn c.1 (synth c.2))).2])
      simp only [MbssSim.cbIter, MbssSim.convergence_callback, List.map_cons]
      constructor
      · rw [h.1]; simp
      · rw [h.2]; simp

/-- Net effect of a sequence of `mbss_oneshot` callback invocations. -/
theorem oneshot_cbIter_spec {α β : Type} {S N : ℕ}
    (synth : α → Fin S → Fin N → ℚ) (stdFn : (Fin S → ℚ) → ℚ)
    (bssEval : (Fin S → Fin N → ℚ) → β × β) (algo : String) (Ys : List α) :
    ∀ S0 I0 : List β,
      (MbssOneshot.cbIter synth stdFn bssEval algo Ys S0 I0).1 =
        S0 ++ Ys.map
          (fun Y => (bssEval (MbssOneshot.oneshot_reorder stdFn algo (synth Y))).1) ∧
      (MbssOneshot.cbIter synth stdFn bssEval algo Ys S0 I0).2 =
        I0 ++ Ys.map
          (fun Y => (bssEval (MbssOneshot.oneshot_reorder stdFn algo (synth Y))).2) := by
  induction Ys with
  | nil => intro S0 I0; simp [MbssOneshot.cbIter]
  | cons Y Ys ih =>
      intro S0 I0
      have h := ih
        (S0 ++ [(bssEval (MbssOneshot.oneshot_reorder stdFn algo (synth Y))).1])
        (I0 ++ [(bssEval (MbssOneshot.oneshot_reorder stdFn algo (synth Y))).2])
      simp only [MbssOneshot.cbIter, MbssOneshot.convergence_callback,
        List.map_cons]
      constructor
      · rw [h.1]; simp
      · rw [h.2]; simp

/-- C6: the convergence trace is append-only in both drivers: a sequence of
`n` callback invocations starting from metric lists `S0`, `I0` leaves the
existing entries untouched and appends exactly one entry per invocation, in
invocation order, so each list ends with exactly `S0.length + n`
(resp. `I0.length + n`) entries. -/
theorem c6_trace_append_only :
    (∀ (α β : Type) (S N : ℕ) (synth : α → Fin S → Fin N → ℚ)
      (stdFn : (Fin S → ℚ) → ℚ) (bssEval : (Fin S → Fin N → ℚ) → β × β)
      (calls : List (String × α)) (S0 I0 : List β),
      (MbssSim.cbIter synth stdFn bssEval calls S0 I0).1 =
        S0 ++ calls.map
          (fun c => (bssEval (MbssSim.sim_reorder stdFn c.1 (synth c.2))).1) ∧
      (MbssSim.cbIter synth stdFn bssEval calls S0 I0).2 =
        I0 ++ calls.map
          (fun c => (bssEval (MbssSim.sim_reorder stdFn c.1 (synth c.2))).2) ∧
      ((MbssSim.cbIter synth stdFn bssEval calls S0 I0).1).length =
        S0.length + calls.length ∧
      ((MbssSim.cbIter synth stdFn bssEval calls S0 I0).2).length =
        I0.length + calls.length) ∧
    (∀ (α β : Type) (S N : ℕ) (synth : α → Fin S → Fin N → ℚ)
      (stdFn : (Fin S → ℚ) → ℚ) (bssEval : (Fin S → Fin N → ℚ) → β × β)
      (algo : String) (Ys : List α) (S0 I0 : List β),
      (MbssOneshot.cbIter synth stdFn bssEval algo Ys S0 I0).1 =
        S0 ++ Ys.map
          (fun Y => (bssEval (MbssOneshot.oneshot_reorder stdFn algo (synth Y))).1) ∧
      (MbssOneshot.cbIter synth stdFn bssEval algo Ys S0 I0).2 =
        I0 ++ Ys.map
          (fun Y => (bssEval (MbssOneshot.oneshot_reorder stdFn algo (synth Y))).2) ∧
      ((MbssOneshot.cbIter synth stdFn bssEval algo Ys S0 I0).1).length =
        S0.length + Ys.length ∧
      ((MbssOneshot.cbIter synth stdFn bssEval algo Ys S0 I0).2).length =
        I0.length + Ys.length) := by
  constructor
  · intro α β S N synth stdFn bssEval calls S0 I0
    have h := sim_cbIter_spec synth stdFn bssEval calls S0 I0
    refine ⟨h.1, h.2, ?_, ?_⟩
    · rw [h.1]; simp
    · rw [h.2]; simp
  · intro α β S N synth stdFn bssEval algo Ys S0 I0
    have h := oneshot_cbIter_spec synth stdFn bssEval algo Ys S0 I0
    refine ⟨h.1, h.2, ?_, ?_⟩
    · rw [h.1]; simp
    · rw [h.2]; simp

/-- C7: in `one_loop`, for each implemented algorithm (`'auxiva'` or
`'blinkiva-gauss'`): when `monitor_convergence` is false the algorithm is
invoked with callback `None` (the `runAlgo` event carries `false`) and
`convergence_callback` is instead called once on the raw mixture `X_mics`
before separation; in both monitoring modes the callback is called exactly
once on the final output `Y` after the algorithm returns (the event trace
ends with that single evaluation), so the record's `sdr` and `sir` lists
are non-empty. -/
theorem c7_final_eval_once {α β κ W : Type} (env : MbssSim.LoopEnv α β κ W)
    (a : MbssSim.SimArgs W) (x : α) (p : String × κ) (st : RngState)
    (h : MbssSim.isKnownAlgo p.1 = true) :
    (MbssSim.runEntry env a x p st).2.1 =
      (if env.monitor then
        MbssSim.Ev.runAlgo p.1 true ::
          ((env.algoRun p.1 p.2 x st).2.1).map MbssSim.Ev.evalY
       else [MbssSim.Ev.evalY x, MbssSim.Ev.runAlgo p.1 false])
      ++ [MbssSim.Ev.evalY (env.algoRun p.1 p.2 x st).1] ∧
    (MbssSim.runEntry env a x p st).1.sdr =
      (if env.monitor then
        ((env.algoRun p.1 p.2 x st).2.1).map (fun z => (env.cbEval p.1 z).1)
       else [(env.cbEval p.1 x).1])
      ++ [(env.cbEval p.1 (env.algoRun p.1 p.2 x st).1).1] ∧
    (MbssSim.runEntry env a x p st).1.sir =
      (if env.monitor then
        ((env.algoRun p.1 p.2 x st).2.1).map (fun z => (env.cbEval p.1 z).2)
       else [(env.cbEval p.1 x).2])
      ++ [(env.cbEval p.1 (env.algoRun p.1 p.2 x st).1).2] ∧
    (MbssSim.runEntry env a x p st).1.sdr ≠ [] ∧
    (MbssSim.runEntry env a x p st).1.sir ≠ [] := by
  unfold MbssSim.runEntry
  cases hm : env.monitor <;> simp [h, hm]

theorem c7_witness :
    MbssSim.isKnownAlgo "auxiva" = true ∧
    MbssSim.isKnownAlgo "blinkiva-gauss" = true ∧
    (MbssSim.runEntry envT argsDet 7 ("auxiva", ()) stT).1.sdr ≠ [] ∧
    (MbssSim.runEntry envT argsDet 7 ("auxiva", ()) stT).1.sir ≠ [] ∧
    (MbssSim.runEntry envM argsDet 7 ("blinkiva-gauss", ()) stT).1.sdr ≠ [] :=
  ⟨by decide, by decide,
    (c7_final_eval_once envT argsDet 7 ("auxiva", ()) stT (by decide)).2.2.2.1,
    (c7_final_eval_once envT argsDet 7 ("auxiva", ()) stT (by decide)).2.2.2.2,
    (c7_final_eval_once envM argsDet 7 ("blinkiva-gauss", ()) stT
      (by decide)).2.2.2.1⟩

/-- C8: for every `snr` and `sinr`, the interference scale `sigma_i` of
`one_loop` is a nonnegative value and never NaN — the square-root argument
is floored at zero with `np.maximum` — under the preconditions that the
source variances are nonnegative and `n_interferers ≥ 1` (the computation
divides by `n_interferers`); and the corresponding computation in
`mbss_oneshot`'s `callback_mix`, which divides by `n_src - n_tgt` without a
floor, is likewise defined and nonnegative under `n_src > n_tgt`.
`pow10` abstracts the (positive-valued) real exponential `10 ** x` and
`sqrtFn` abstracts `np.sqrt`, nonnegative on nonnegative arguments. -/
theorem c8_sigma_i_nonneg (pow10 sqrtFn : ℚ → ℚ)
    (hs : ∀ x, 0 ≤ x → 0 ≤ sqrtFn x) (hp : ∀ x, 0 ≤ pow10 x) :
    (∀ (snr sinr : ℚ) (sv : List ℚ) (n_interferers : ℕ),
      0 ≤ sv.sum → 1 ≤ n_interferers →
      ∃ v, MbssSim.one_loop_sigma_i pow10 sqrtFn snr sinr sv n_interferers =
          some v ∧ 0 ≤ v) ∧
    (∀ (sir : ℚ) (src_std : List ℚ) (n_src n_tgt : ℕ), n_tgt < n_src →
      ∃ v, MbssOneshot.callback_mix_sigma_i pow10 sqrtFn sir src_std
          n_src n_tgt = some v ∧ 0 ≤ v) := by
  constructor
  · intro snr sinr sv n_i hsv hn
    have ha : 0 ≤ pow10 (-snr / 10) * sv.sum := mul_nonneg (hp _) hsv
    have harg : 0 ≤ max 0 (pow10 (-sinr / 10) * sv.sum -
        sqrtFn (pow10 (-snr / 10) * sv.sum) ^ 2) / (n_i : ℚ) :=
      div_nonneg (le_max_left _ _) (Nat.cast_nonneg _)
    refine ⟨_, ?_, hs _ harg⟩
    unfold MbssSim.one_loop_sigma_i MbssSim.one_loop_sigma_n
    rw [if_neg (not_lt.mpr ha)]
    simp only []
    rw [if_neg (by omega : ¬ n_i = 0), if_neg (not_lt.mpr harg)]
  · intro sir ss n_src n_tgt hlt
    have hnum : 0 ≤ pow10 (-sir / 10) * (ss.map (fun x => x ^ 2)).sum := by
      refine mul_nonneg (hp _) (List.sum_nonneg ?_)
      intro y hy
      obtain ⟨x, _, rfl⟩ := List.mem_map.mp hy
      exact sq_nonneg x
    have hd : (0 : ℚ) < (n_src : ℚ) - (n_tgt : ℚ) := by
      rw [sub_pos]
      exact_mod_cast hlt
    have harg : 0 ≤ pow10 (-sir / 10) * (ss.map (fun x => x ^ 2)).sum /
        ((n_src : ℚ) - (n_tgt : ℚ)) := div_nonneg hnum hd.le
    refine ⟨_, ?_, hs _ harg⟩
    unfold MbssOneshot.callback_mix_sigma_i
    rw [if_neg (not_le.mpr hlt), if_neg (not_lt.mpr harg)]

theorem c8_witness :
    (∃ v, MbssSim.one_loop_sigma_i (fun _ => 1) (fun x => x) 0 0 [] 1 =
        some v ∧ 0 ≤ v) ∧
    (∃ v, MbssOneshot.callback_mix_sigma_i (fun _ => 1) (fun x => x) 0 [] 2 1 =
        some v ∧ 0 ≤ v) :=
  ⟨(c8_sigma_i_nonneg (fun _ => 1) (fun x => x) (fun _ hx => hx)
      (fun _ => zero_le_one)).1 0 0 [] 1 (le_of_eq rfl) (le_refl 1),
    (c8_sigma_i_nonneg (fun _ => 1) (fun x => x) (fun _ hx => hx)
      (fun _ => zero_le_one)).2 0 [] 2 1 (by decide)⟩

/-- Every record built by one iteration of the algorithm loop carries the
algorithm name of its `algorithm_kwargs` entry and the condition fields of
the argument tuple. -/
theorem runEntry_fields {α β κ W : Type} (env : MbssSim.LoopEnv α β κ W)
    (a : MbssSim.SimArgs W) (x : α) (p : String × κ) (st : RngState) :
    (MbssSim.runEntry env a x p st).1.algorithm = p.1 ∧
    (MbssSim.runEntry env a x p st).1.n_targets = a.n_targets ∧
    (MbssSim.runEntry env a x p st).1.n_mics = a.n_mics ∧
    (MbssSim.runEntry env a x p st).1.rt60 = a.rt60 ∧
    (MbssSim.runEntry env a x p st).1.sinr = a.sinr ∧
    (MbssSim.runEntry env a x p st).1.seed = a.seed := by
  unfold MbssSim.runEntry
  cases h : MbssSim.isKnownAlgo p.1 <;> simp [h]

/-- The algorithm loop produces one record per `algorithm_kwargs` entry. -/
theorem runEntries_length {α β κ W : Type} (env : MbssSim.LoopEnv α β κ W)
    (a : MbssSim.SimArgs W) (x : α) (l : List (String × κ)) :
    ∀ st, (MbssSim.runEntries env a x l st).1.length = l.length := by
  induction l with
  | nil => intro st; rfl
  | cons p ps ih =>
      intro st
      simp only [MbssSim.runEntries, List.length_cons]
      rw [ih]

/-- The `i`-th record of the algorithm loop corresponds to the `i`-th
`algorithm_kwargs` entry and carries the condition fields. -/
theorem runEntries_get_fields {α β κ W : Type} (env : MbssSim.LoopEnv α β κ W)
    (a : MbssSim.SimArgs W) (x : α) (l : List (String × κ)) :
    ∀ (st : RngState) (i : ℕ)
      (hi : i < (MbssSim.runEntries env a x l st).1.length) (hj : i < l.length),
      ((MbssSim.runEntries env a x l st).1.get ⟨i, hi⟩).algorithm =
        (l.get ⟨i, hj⟩).1 ∧
      ((MbssSim.runEntries env a x l st).1.get ⟨i, hi⟩).n_targets = a.n_targets ∧
      ((MbssSim.runEntries env a x l st).1.get ⟨i, hi⟩).n_mics = a.n_mics ∧
      ((MbssSim.runEntries env a x l st).1.get ⟨i, hi⟩).rt60 = a.rt60 ∧
      ((MbssSim.runEntries env a x l st).1.get ⟨i, hi⟩).sinr = a.sinr ∧
      ((MbssSim.runEntries env a x l st).1.get ⟨i, hi⟩).seed = a.seed := by
  induction l with
  | nil => intro st i hi hj; exact absurd hj (by simp)
  | cons p ps ih =>
      intro st i hi hj
      cases i with
      | zero => exact runEntry_fields env a x p st
      | succ n =>
          exact ih (MbssSim.runEntry env a x p st).2.2 n
            (by simpa [MbssSim.runEntries] using hi) (by simpa using hj)

/-- C9: past the underdetermined check, `one_loop` returns exactly one
record per key of `parameters['algorithm_kwargs']`, in iteration order,
each carrying the condition fields (`algorithm`, `n_targets`, `n_mics`,
`rt60`, `sinr`, `seed`) plus the `sdr`/`sir` lists; and for an algorithm
name that is neither `'auxiva'` nor `'blinkiva-gauss'` the loop iteration
runs no separation and appends no final evaluation (its full effect is the
record plus, only when `monitor_convergence` is false, the single initial
evaluation). -/
theorem c9_one_record_per_algo :
    (∀ (α β κ W : Type) (env : MbssSim.LoopEnv α β κ W)
      (a : MbssSim.SimArgs W) (st : RngState), ¬(a.n_mics < a.n_targets) →
      ∃ rs evs, MbssSim.one_loop env a st =
          (Except.ok rs, st, MbssSim.Ev.simulate :: evs) ∧
        rs.length = env.algos.length ∧
        ∀ (i : ℕ) (hi : i < rs.length) (hj : i < env.algos.length),
          (rs.get ⟨i, hi⟩).algorithm = (env.algos.get ⟨i, hj⟩).1 ∧
          (rs.get ⟨i, hi⟩).n_targets = a.n_targets ∧
          (rs.get ⟨i, hi⟩).n_mics = a.n_mics ∧
          (rs.get ⟨i, hi⟩).rt60 = a.rt60 ∧
          (rs.get ⟨i, hi⟩).sinr = a.sinr ∧
          (rs.get ⟨i, hi⟩).seed = a.seed) ∧
    (∀ (α β κ W : Type) (env : MbssSim.LoopEnv α β κ W)
      (a : MbssSim.SimArgs W) (x : α) (p : String × κ) (st : RngState),
      MbssSim.isKnownAlgo p.1 = false →
      MbssSim.runEntry env a x p st =
        (⟨p.1, a.n_targets, a.n_mics, a.rt60, a.sinr, a.seed,
            if env.monitor then [] else [(env.cbEval p.1 x).1],
            if env.monitor then [] else [(env.cbEval p.1 x).2]⟩,
          if env.monitor then [] else [MbssSim.Ev.evalY x], st)) := by
  constructor
  · intro α β κ W env a st h
    refine ⟨(MbssSim.runEntries env a
        (env.simulate a.wav_files (seedState a.seed)).1 env.algos
        (env.simulate a.wav_files (seedState a.seed)).2).1,
      (MbssSim.runEntries env a
        (env.simulate a.wav_files (seedState a.seed)).1 env.algos
        (env.simulate a.wav_files (seedState a.seed)).2).2.1, ?_, ?_, ?_⟩
    · unfold MbssSim.one_loop
      rw [if_neg h]
    · exact runEntries_length env a _ env.algos _
    · intro i hi hj
      exact runEntries_get_fields env a _ env.algos _ i hi hj
  · intro α β κ W env a x p st h
    unfold MbssSim.runEntry
    simp [h]

theorem c9_witness :
    (¬(argsDet.n_mics < argsDet.n_targets) ∧
      ∃ rs evs, MbssSim.one_loop envT argsDet stT =
        (Except.ok rs, stT, MbssSim.Ev.simulate :: evs) ∧
        rs.length = envT.algos.length) ∧
    (MbssSim.isKnownAlgo "no-such-algo" = false ∧
      MbssSim.runEntry envT argsDet 7 ("no-such-algo", ()) stT =
        (⟨"no-such-algo", 2, 2, "low", 0, 42, [7], [8]⟩,
          [MbssSim.Ev.evalY 7], stT)) := by
  constructor
  · refine ⟨by decide, ?_⟩
    obtain ⟨rs, evs, h1, h2, _⟩ :=
      c9_one_record_per_algo.1 ℕ ℕ Unit Unit envT argsDet stT (by decide)
    exact ⟨rs, evs, h1, h2⟩
  · exact ⟨by decide,
      c9_one_record_per_algo.2 ℕ ℕ Unit Unit envT argsDet 7
        ("no-such-algo", ()) stT (by decide)⟩

/-- C10: before evaluation the synthesized channels are permuted into
decreasing order of standard deviation exactly when the algorithm is not a
blinky algorithm, but the two drivers use different predicates:
`mbss_sim`'s callback skips the reordering for every algorithm name
starting with `'blinkiva'`, while `mbss_oneshot` skips it only when the
algorithm equals `'blinkiva'` exactly — so `'blinkiva-gauss'` output is
reordered by power in `mbss_oneshot` but kept in the separator's order in
`mbss_sim`.  The applied permutation `argsortDesc` is a permutation of the
channel indices that puts the per-channel values in decreasing order. -/
theorem c10_reorder_predicates :
    (∀ (S N : ℕ) (stdFn : (Fin S → ℚ) → ℚ) (name : String)
      (y : Fin S → Fin N → ℚ),
      MbssSim.sim_reorder stdFn name y =
        (if pyStartswith name "blinkiva" then y
         else MbssSim.reorderDesc stdFn y) ∧
      MbssOneshot.oneshot_reorder stdFn name y =
        (if name == "blinkiva" then y else MbssSim.reorderDesc stdFn y) ∧
      MbssSim.sim_reorder stdFn "blinkiva-gauss" y = y ∧
      MbssOneshot.oneshot_reorder stdFn "blinkiva-gauss" y =
        MbssSim.reorderDesc stdFn y) ∧
    (∀ (N : ℕ) (v : Fin N → ℚ),
      ((MbssSim.argsortDesc v).map v).Sorted (· ≥ ·) ∧
      (MbssSim.argsortDesc v).Perm (List.finRange N)) := by
  constructor
  · intro S N stdFn name y
    refine ⟨?_, ?_, ?_, ?_⟩
    · cases h : pyStartswith name "blinkiva" <;>
        simp [MbssSim.sim_reorder, h]
    · cases h : name == "blinkiva" <;>
        simp [MbssOneshot.oneshot_reorder, h]
    · simp [MbssSim.sim_reorder,
        show pyStartswith "blinkiva-gauss" "blinkiva" = true from by decide]
    · simp [MbssOneshot.oneshot_reorder,
        show ("blinkiva-gauss" == "blinkiva") = false from by decide]
  · intro N v
    constructor
    · unfold MbssSim.argsortDesc
      rw [List.map_reverse, List.Sorted, List.pairwise_reverse,
        List.pairwise_map]
      have hms := @List.sorted_mergeSort (Fin N)
        (fun i j => decide (v i ≤ v j))
        (fun a b c hab hbc => by
          simp only [decide_eq_true_eq] at *
          exact le_trans hab hbc)
        (fun a b => by
          simp only [Bool.or_eq_true, decide_eq_true_eq]
          exact le_total (v a) (v b))
        (List.finRange N)
      exact hms.imp (fun h => by simpa using h)
    · exact ((List.finRange N).mergeSort
        (fun i j => decide (v i ≤ v j))).reverse_perm.trans
        (List.mergeSort_perm _ _)
